import Mathlib

/-!
Shallow embedding of `src/popcap_pak_extractor.c` (a PopCap `.pak` archive
extractor written in ANSI C for Windows) and verification of its
specification claims.

Modelling conventions:
* A byte is a `Nat` value `< 256`; the container stream is a `List Nat`
  consumed front to back (the `FILE*` cursor becomes explicit list passing).
* `fread(buf, 1, n, f)` that delivers all `n` requested bytes becomes
  `readBytes n s = some (s.take n, s.drop n)`; a short read followed by a
  use of the (partly uninitialized) buffer has no defined value in C, so
  the functions that would do that return `none`.
* OS calls (`CreateDirectory`, `CreateFile`, `WriteFile`, `SetFileTime`)
  are external collaborators; their success or failure is supplied by an
  environment of boolean oracles.  `WriteFile` and `SetFileTime` are
  modelled as succeeding, which is the interesting case for every claim.
* `malloc` success is assumed for the arena model (the C code aborts the
  process on `malloc` failure, which is outside the embedding).
-/

namespace PakExtractor

/-! ### Stream codec: `decode_one_byte` / `decode_bytes` (C lines 223-232) -/

/-- C macro `decode_one_byte(c)`: `(unsigned char)(c ^ 0xf7)`.
The cast to `unsigned char` is the `% 256`. -/
def decode_one_byte (c : Nat) : Nat := (c ^^^ 0xf7) % 256

/-- C macro `decode_bytes(from, to, len)`: byte-wise decode of a buffer.
The in-place loop over `len` bytes becomes a `map` over the list. -/
def decode_bytes (l : List Nat) : List Nat := l.map decode_one_byte

/-- Model of `fread(buf, 1, n, f)` when it must deliver all `n` bytes:
`some (bytes read, rest of stream)`, or `none` when fewer than `n` bytes
remain (the C code would then use an uninitialized buffer suffix). -/
def readBytes (n : Nat) (s : List Nat) : Option (List Nat × List Nat) :=
  if n ≤ s.length then some (s.take n, s.drop n) else none

/-! ### Record and record-collection types (C structs `FileAttr`, `FileAttrList`) -/

/-- C struct `FileAttr`.  `fileName` is the pool allocation produced by
`parse_file_name`: `filenameLen` decoded bytes followed by the NUL byte.
`fileSize` is the `UINT32` assembled from the 4 decoded bytes in native
(little-endian x86) order.  `lastWriteTime` is the 8 decoded `FILETIME`
bytes, kept opaque.  The `next` pointer is absorbed into the list used
for `FileAttrList`. -/
structure FileAttr where
  fileName : List Nat
  fileSize : Nat
  lastWriteTime : List Nat
deriving Repr, DecidableEq

/-- C struct `FileAttrList`: the singly linked list with tail pointer is
modelled as the list of its nodes in head-to-tail order, plus the
`length` field which the C code maintains separately. -/
structure FileAttrList where
  items : List FileAttr
  length : Nat
deriving Repr, DecidableEq

/-- `file_attr_list_init`: empty list, `length = 0`. -/
def file_attr_list_init : FileAttrList := ⟨[], 0⟩

/-- `file_attr_list_add`: appends `attr` at the tail (via the tail
pointer) and increments the `length` field. -/
def file_attr_list_add (flist : FileAttrList) (attr : FileAttr) : FileAttrList :=
  ⟨flist.items ++ [attr], flist.length + 1⟩

/-! ### Header parsing (C lines 234-302) -/

/-- Little-endian 32-bit value of 4 bytes, as x86 reads the `UINT32`
whose memory `parse_file_size` filled. -/
def le32 (bs : List Nat) : Nat :=
  match bs with
  | [b0, b1, b2, b3] => b0 + 256 * b1 + 65536 * b2 + 16777216 * b3
  | _ => 0

/-- `reach_pak_header_end`: read one byte, decode it, compare with `0x80`.
Returns the flag outcome and the rest of the stream; `none` when the
stream is empty (the C `fread` fails and the flag byte is uninitialized;
the enclosing loop then exits on `feof`). -/
def reach_pak_header_end (s : List Nat) : Option (Bool × List Nat) :=
  match s with
  | [] => none
  | flag :: rest => some (decode_one_byte flag = 0x80, rest)

/-- `parse_file_name`: read one byte, decode it into `filenameLen`;
allocate `filenameLen + 1` bytes, write `'\0'` at index `filenameLen`,
read `filenameLen` bytes and decode them in place.  The resulting
allocation is `decode_bytes raw ++ [0]`. -/
def parse_file_name (s : List Nat) : Option (List Nat × List Nat) :=
  match s with
  | [] => none
  | b :: rest =>
    let filenameLen := decode_one_byte b
    match readBytes filenameLen rest with
    | none => none
    | some (raw, rest2) => some (decode_bytes raw ++ [0], rest2)

/-- `parse_file_size`: read 4 bytes into the `UINT32`, decode in place. -/
def parse_file_size (s : List Nat) : Option (Nat × List Nat) :=
  match readBytes 4 s with
  | none => none
  | some (raw, rest) => some (le32 (decode_bytes raw), rest)

/-- `parse_file_last_write_time`: read 8 bytes into the `FILETIME`,
decode in place. -/
def parse_file_last_write_time (s : List Nat) : Option (List Nat × List Nat) :=
  match readBytes 8 s with
  | none => none
  | some (raw, rest) => some (decode_bytes raw, rest)

/-- Body of one iteration of `parse_all_file_attrs` after the terminator
check: allocate a `FileAttr` and fill its three fields from the stream. -/
def parse_record (s : List Nat) : Option (FileAttr × List Nat) :=
  match parse_file_name s with
  | none => none
  | some (name, s1) =>
    match parse_file_size s1 with
    | none => none
    | some (sz, s2) =>
      match parse_file_last_write_time s2 with
      | none => none
      | some (t, s3) => some (⟨name, sz, t⟩, s3)

theorem readBytes_some {n : Nat} {s a r : List Nat}
    (h : readBytes n s = some (a, r)) : a = s.take n ∧ r = s.drop n ∧ n ≤ s.length := by
  unfold readBytes at h
  by_cases hle : n ≤ s.length
  · simp [hle] at h
    exact ⟨h.1.symm, h.2.symm, hle⟩
  · simp [hle] at h

theorem readBytes_length_le {n : Nat} {s a r : List Nat}
    (h : readBytes n s = some (a, r)) : r.length ≤ s.length := by
  obtain ⟨-, hr, -⟩ := readBytes_some h
  subst hr
  simp [List.length_drop]

theorem parse_file_name_length_lt {s buf r : List Nat}
    (h : parse_file_name s = some (buf, r)) : r.length < s.length := by
  unfold parse_file_name at h
  match s with
  | [] => exact absurd h (by simp)
  | b :: rest =>
    simp only at h
    cases hrb : readBytes (decode_one_byte b) rest with
    | none => rw [hrb] at h; exact absurd h (by simp)
    | some pr =>
      obtain ⟨a, r2⟩ := pr
      rw [hrb] at h
      simp only [Option.some.injEq, Prod.mk.injEq] at h
      have := readBytes_length_le hrb
      have : r.length ≤ rest.length := h.2 ▸ this
      simpa [List.length_cons] using Nat.lt_succ_of_le this

theorem parse_file_size_length_le {s : List Nat} {v : Nat} {r : List Nat}
    (h : parse_file_size s = some (v, r)) : r.length ≤ s.length := by
  unfold parse_file_size at h
  cases hrb : readBytes 4 s with
  | none => rw [hrb] at h; exact absurd h (by simp)
  | some pr =>
    obtain ⟨a, r2⟩ := pr
    rw [hrb] at h
    simp only [Option.some.injEq, Prod.mk.injEq] at h
    exact h.2 ▸ readBytes_length_le hrb

theorem parse_file_last_write_time_length_le {s t r : List Nat}
    (h : parse_file_last_write_time s = some (t, r)) : r.length ≤ s.length := by
  unfold parse_file_last_write_time at h
  cases hrb : readBytes 8 s with
  | none => rw [hrb] at h; exact absurd h (by simp)
  | some pr =>
    obtain ⟨a, r2⟩ := pr
    rw [hrb] at h
    simp only [Option.some.injEq, Prod.mk.injEq] at h
    exact h.2 ▸ readBytes_length_le hrb

theorem parse_record_length_lt {s : List Nat} {attr : FileAttr} {r : List Nat}
    (h : parse_record s = some (attr, r)) : r.length < s.length := by
  unfold parse_record at h
  cases h1 : parse_file_name s with
  | none => rw [h1] at h; exact absurd h (by simp)
  | some p1 =>
    obtain ⟨name, s1⟩ := p1
    rw [h1] at h
    dsimp only at h
    cases h2 : parse_file_size s1 with
    | none => rw [h2] at h; exact absurd h (by simp)
    | some p2 =>
      obtain ⟨sz, s2⟩ := p2
      rw [h2] at h
      dsimp only at h
      cases h3 : parse_file_last_write_time s2 with
      | none => rw [h3] at h; exact absurd h (by simp)
      | some p3 =>
        obtain ⟨t, s3⟩ := p3
        rw [h3] at h
        dsimp only at h
        simp only [Option.some.injEq, Prod.mk.injEq] at h
        calc r.length = s3.length := by rw [h.2]
          _ ≤ s2.length := parse_file_last_write_time_length_le h3
          _ ≤ s1.length := parse_file_size_length_le h2
          _ < s.length := parse_file_name_length_lt h1

/-- `parse_all_file_attrs` (C lines 281-296): loop `while (!feof)`,
per iteration first `reach_pak_header_end` (one flag byte; `0x80` ends
the table), then one record is parsed and appended to `flist`.
An empty stream at the flag read, or a short read inside a record, makes
the subsequent `feof` test true and the loop exit; those iterations use
uninitialized bytes in C, and the model ends the loop there without
appending.  Returns the final list and the remaining stream (the shared
cursor the extraction engine continues from). -/
def parse_all_file_attrs (s : List Nat) (flist : FileAttrList) : FileAttrList × List Nat :=
  match s with
  | [] => (flist, [])
  | flag :: rest =>
    if decode_one_byte flag = 0x80 then (flist, rest)
    else
      match h : parse_record rest with
      | none => (flist, [])
      | some (attr, rest2) =>
        parse_all_file_attrs rest2 (file_attr_list_add flist attr)
  termination_by s.length
  decreasing_by
    simp only [List.length_cons]
    exact Nat.lt_succ_of_lt (parse_record_length_lt h)

/-- Modelled from the spec: the `ReadRecordOrEnd` loop of §4.3 in the
spec's own words — "read and decode 1 byte.  If it equals the terminator
sentinel (0x80), transition to `Done`.  Otherwise treat the decoded byte
as the filename length `L`; read and decode `L` bytes as the name; read
and decode 4 bytes as `size`; read and decode 8 bytes as
`modifiedTime`; construct a File Record ... and append it".
End-of-input before the sentinel stops the loop.  Records are built in
the same representation as `parse_record` so that this definition can be
compared with `parse_all_file_attrs`. -/
def parse_all_spec (s : List Nat) (flist : FileAttrList) : FileAttrList × List Nat :=
  match s with
  | [] => (flist, [])
  | b :: rest =>
    let L := decode_one_byte b
    if L = 0x80 then (flist, rest)
    else
      match h1 : readBytes L rest with
      | none => (flist, [])
      | some (rawName, s1) =>
        match h2 : readBytes 4 s1 with
        | none => (flist, [])
        | some (rawSize, s2) =>
          match h3 : readBytes 8 s2 with
          | none => (flist, [])
          | some (rawTime, s3) =>
            parse_all_spec s3 (file_attr_list_add flist
              ⟨decode_bytes rawName ++ [0], le32 (decode_bytes rawSize),
               decode_bytes rawTime⟩)
  termination_by s.length
  decreasing_by
    simp only [List.length_cons]
    have e1 := readBytes_length_le h1
    have e2 := readBytes_length_le h2
    have e3 := readBytes_length_le h3
    omega

/-- C struct `PakHeader`. -/
structure PakHeader where
  magic : List Nat
  version : List Nat
  flist : FileAttrList
deriving Repr, DecidableEq

/-- `parse_pak_header` (C lines 298-302): `parse_magic` and
`parse_version` read and decode 4 bytes each; a container shorter than 8
bytes leaves `feof` set, so the record loop never runs.  Then the record
table is parsed.  Neither magic nor version is validated. -/
def parse_pak_header (pak : List Nat) : PakHeader × List Nat :=
  let magic := decode_bytes (pak.take 4)
  let s1 := pak.drop 4
  let version := decode_bytes (s1.take 4)
  let s2 := s1.drop 4
  if pak.length < 8 then (⟨magic, version, file_attr_list_init⟩, [])
  else
    let pr := parse_all_file_attrs s2 file_attr_list_init
    (⟨magic, version, pr.1⟩, pr.2)

/-! ### Memory Pool: the arena allocator (C lines 24-34, 65-155) -/

/-- C struct `ArenaBlockHeader`.  The `next` pointer is absorbed into the
`blocks` list of `ArenaAllocator`.  `id` is a model annotation standing
for the identity of the `malloc`-ed block (distinct heap blocks never
alias); ids are issued from the `blockNum` counter, so they are unique. -/
structure ArenaBlockHeader where
  id : Nat
  used : Nat
  capacity : Nat
deriving Repr, DecidableEq

/-- C struct `ArenaAllocator`.  `blocks` is the chain from `head`
following `next`: the head of the list is the most recently linked
block. -/
structure ArenaAllocator where
  blocks : List ArenaBlockHeader
  blockSize : Nat
  blockNum : Nat
deriving Repr, DecidableEq

/-- A span handed out by `arena_malloc`: the pointer
`(char*)(block + 1) + offset` together with the requested length,
identified by the block it lies in. -/
structure Span where
  blockId : Nat
  offset : Nat
  len : Nat
deriving Repr, DecidableEq

/-- `arena_create(blockSize)` (success path; `malloc` failure returns
`NULL` in C and is outside the model): one block, `used = 0`,
`capacity = blockSize`, `blockNum = 1`. -/
def arena_create (blockSize : Nat) : ArenaAllocator :=
  ⟨[⟨0, 0, blockSize⟩], blockSize, 1⟩

/-- `arena_create_new_block(arena, size, used)` (success path; on
`malloc` failure the C code aborts the process): prepend a block with
`capacity = size` and the given `used`, increment `blockNum`.  The fresh
block's model id is the old `blockNum`. -/
def arena_create_new_block (arena : ArenaAllocator) (size used : Nat) : ArenaAllocator :=
  { arena with
    blocks := ⟨arena.blockNum, used, size⟩ :: arena.blocks,
    blockNum := arena.blockNum + 1 }

/-- The scan loop of `arena_malloc`: walk the chain from `head`, take
the first block with `used + size <= capacity`, bump its `used` by
`size` and return the span starting at the old `used` (the C pointer is
`(char*)(cursor + 1) + cursor->used - size` after the bump). -/
def arena_scan (blocks : List ArenaBlockHeader) (size : Nat) :
    Option (List ArenaBlockHeader × Span) :=
  match blocks with
  | [] => none
  | b :: bs =>
    if b.used + size ≤ b.capacity then
      some ({ b with used := b.used + size } :: bs, ⟨b.id, b.used, size⟩)
    else
      match arena_scan bs size with
      | none => none
      | some (bs2, sp) => some (b :: bs2, sp)

/-- `arena_malloc(arena, size)` (C lines 133-155): serve from the first
block found by the scan; otherwise create a new block — of size
`blockSize` when `size < blockSize`, else of size `size` — with
`used = size`, and return the span at its start (`(void*)(newBlock + 1)`). -/
def arena_malloc (arena : ArenaAllocator) (size : Nat) : ArenaAllocator × Span :=
  match arena_scan arena.blocks size with
  | some (blocks2, sp) => ({ arena with blocks := blocks2 }, sp)
  | none =>
    if size < arena.blockSize then
      (arena_create_new_block arena arena.blockSize size, ⟨arena.blockNum, 0, size⟩)
    else
      (arena_create_new_block arena size size, ⟨arena.blockNum, 0, size⟩)

/-- Modelled from the spec: the allocation contract of §4.1 in the
spec's own words — scan existing blocks most-recent first for the first
block with `capacity - used ≥ size` and bump that block's `used` by
exactly `size`; if no block qualifies, create a new block of capacity
`max(defaultBlockSize, size)` with `used = size`, linked as the new
most-recent block.  Written for comparison with `arena_malloc`. -/
def alloc_spec_scan (blocks : List ArenaBlockHeader) (size : Nat) :
    Option (List ArenaBlockHeader × Span) :=
  match blocks with
  | [] => none
  | b :: bs =>
    if size ≤ b.capacity - b.used then
      some ({ b with used := b.used + size } :: bs, ⟨b.id, b.used, size⟩)
    else
      match alloc_spec_scan bs size with
      | none => none
      | some (bs2, sp) => some (b :: bs2, sp)

/-- Modelled from the spec: `allocate(size)` of §4.1, see
`alloc_spec_scan`. -/
def alloc_spec (arena : ArenaAllocator) (size : Nat) : ArenaAllocator × Span :=
  match alloc_spec_scan arena.blocks size with
  | some (blocks2, sp) => ({ arena with blocks := blocks2 }, sp)
  | none =>
    ({ arena with
       blocks := ⟨arena.blockNum, size, max arena.blockSize size⟩ :: arena.blocks,
       blockNum := arena.blockNum + 1 },
     ⟨arena.blockNum, 0, size⟩)

/-- Allocation history: the pool together with every span handed out. -/
structure ArenaState where
  arena : ArenaAllocator
  spans : List Span
deriving Repr, DecidableEq

/-- One `arena_malloc` call recorded in the history. -/
def alloc_step (st : ArenaState) (size : Nat) : ArenaState :=
  let p := arena_malloc st.arena size
  ⟨p.1, st.spans ++ [p.2]⟩

/-- A fresh pool from `arena_create` followed by a sequence of
`arena_malloc` requests. -/
def arena_run (blockSize : Nat) (sizes : List Nat) : ArenaState :=
  sizes.foldl alloc_step ⟨arena_create blockSize, []⟩

/-- Two spans overlap when they lie in the same block and their
half-open offset ranges intersect. -/
def spans_overlap (s1 s2 : Span) : Bool :=
  s1.blockId = s2.blockId &&
    max s1.offset s2.offset < min (s1.offset + s1.len) (s2.offset + s2.len)

/-- Well-formedness of an allocation history: every block respects
`used ≤ capacity`, block ids are fresh and distinct, every span handed
out lies inside the used part of the block it names, and no two spans
overlap. -/
def arena_wf (st : ArenaState) : Prop :=
  (∀ b ∈ st.arena.blocks, b.used ≤ b.capacity) ∧
  (∀ b ∈ st.arena.blocks, b.id < st.arena.blockNum) ∧
  (st.arena.blocks.map ArenaBlockHeader.id).Nodup ∧
  (∀ sp ∈ st.spans, ∃ b ∈ st.arena.blocks,
      sp.blockId = b.id ∧ sp.offset + sp.len ≤ b.used) ∧
  st.spans.Pairwise (fun s1 s2 => spans_overlap s1 s2 = false)

/-! ### Path composition (C lines 305-327) and the extraction engine -/

/-- One of the copy loops of `build_complete_path`: copy characters of a
C string into the output buffer until the NUL terminator. -/
def copy_cstr (src : List Nat) (buf : List Nat) : List Nat :=
  match src with
  | [] => buf
  | c :: cs => if c = 0 then buf else copy_cstr cs (buf ++ [c])

/-- `build_complete_path(buf, len, extractPath, fileName)`: copy
`extractPath`, then look at the character just before its terminator
(`--extractPath`); append a backslash (code 92) unless that character is
already one; copy `fileName`; terminate.  For an empty `extractPath` the
C code reads the byte before the string, which has no defined value:
`none`.  The unchecked `MAX_PATH` bound of the C buffer is not modelled. -/
def build_complete_path (extractPath fileName : List Nat) : Option (List Nat) :=
  let buf1 := copy_cstr extractPath []
  match buf1.getLast? with
  | none => none
  | some c =>
    let buf2 := if c ≠ 92 then buf1 ++ [92] else buf1
    some (copy_cstr fileName buf2)

/-- Success oracles for the external directory/file services used by
`parse_and_extract_one_file`: `dirsOk path` is the outcome of
`recursive_create_parent_dirs(path)`, `createOk path` the outcome of
`CreateFile(path, ..., CREATE_NEW, ...)`.  `WriteFile` and `SetFileTime`
are modelled as succeeding. -/
structure ExtractEnv where
  dirsOk : List Nat → Bool
  createOk : List Nat → Bool

/-- One iteration of the chunked copy loop of
`parse_and_extract_one_file` (C lines 389-405), acting on the loop state
`(fileSize, remaining stream)`: request `min fileSize len` bytes,
receive what the stream still has, write them out (`WriteFile`
succeeds), and subtract the bytes actually read from `fileSize`. -/
def copy_step (len : Nat) (st : Nat × List Nat) : Nat × List Nat :=
  let req := min st.1 len
  let readLen := min req st.2.length
  (st.1 - readLen, st.2.drop readLen)

/-- The chunked copy loop run to completion: returns the decoded bytes
written to the output file and the remaining stream.  When an iteration
reads zero bytes while `fileSize > 0` the loop state no longer changes
(see `copy_step`), so the loop never exits; that is returned as `none`. -/
def copy_loop (bufLen fileSize : Nat) (s : List Nat) : Option (List Nat × List Nat) :=
  if fileSize = 0 then some ([], s)
  else
    let req := min fileSize bufLen
    let readLen := min req s.length
    if h : readLen = 0 then none
    else
      match copy_loop bufLen (fileSize - readLen) (s.drop readLen) with
      | none => none
      | some (out, rest) => some (decode_bytes (s.take readLen) ++ out, rest)
  termination_by fileSize
  decreasing_by
    rename_i hfs
    have hpos : 0 < readLen := Nat.pos_of_ne_zero h
    have : readLen ≤ fileSize := le_trans (Nat.min_le_left _ _) (Nat.min_le_left _ _)
    omega

/-- `parse_and_extract_one_file` (C lines 363-414): build the path; on
directory-creation or exclusive-file-creation failure log and return
(the record is skipped, the stream cursor untouched); otherwise run the
chunked copy.  The outer `none` marks a run with no defined result
(empty extraction root, or a copy loop that never exits); the inner
`Option` is `none` for a skipped record and `some content` for a
written file. -/
def parse_and_extract_one_file (env : ExtractEnv) (extractPath : List Nat)
    (attr : FileAttr) (bufLen : Nat) (s : List Nat) :
    Option ((List Nat × Option (List Nat)) × List Nat) :=
  match build_complete_path extractPath attr.fileName with
  | none => none
  | some path =>
    if env.dirsOk path = false then some ((path, none), s)
    else if env.createOk path = false then some ((path, none), s)
    else
      match copy_loop bufLen attr.fileSize s with
      | none => none
      | some (out, rest) => some ((path, some out), rest)

/-- The record walk of `extract_files` (C lines 432-435), threading the
shared stream cursor through the per-record extractions.  Returns the
per-record outcomes (path, written content or skip) in record order. -/
def extract_files_loop (env : ExtractEnv) (extractPath : List Nat)
    (attrs : List FileAttr) (bufLen : Nat) (s : List Nat) :
    Option (List (List Nat × Option (List Nat)) × List Nat) :=
  match attrs with
  | [] => some ([], s)
  | a :: rest =>
    match parse_and_extract_one_file env extractPath a bufLen s with
    | none => none
    | some (r, s1) =>
      match extract_files_loop env extractPath rest bufLen s1 with
      | none => none
      | some (rs, s2) => some (r :: rs, s2)

/-- `extract_files` (C lines 427-438): allocate the 8192-byte working
buffer from the pool and extract every record of the collection in
order. -/
def extract_files (env : ExtractEnv) (flist : FileAttrList)
    (extractPath : List Nat) (s : List Nat) :
    Option (List (List Nat × Option (List Nat)) × List Nat) :=
  extract_files_loop env extractPath flist.items 8192 s

/-! ### `main` (C lines 440-471) -/

/-- The facts about the session environment that `main` branches on:
the argument count, whether the extraction directory already exists
(`is_dir_exist(argv[2])`), and whether the three steps of
`resource_init` — `arena_create`, `fopen(pak)`, `fopen(filenames.txt)` —
succeed. -/
structure MainEnv where
  argc : Nat
  extractDir : List Nat
  extractDirExists : Bool
  arenaOk : Bool
  pakOpenOk : Bool
  savOpenOk : Bool

/-- `resource_init` (C lines 172-198) succeeds exactly when the pool,
the container stream and the sidecar log can all be initialized. -/
def resource_init (e : MainEnv) : Bool := e.arenaOk && e.pakOpenOk && e.savOpenOk

/-- `main`: exit 1 on wrong argument count, on a pre-existing
extraction directory, or on `resource_init` failure — in each case
before any parsing or extraction.  Otherwise parse the header and
extract every record; the run completes with exit 0 whatever the
per-record outcomes were.  The result is the exit code together with
the per-record extraction outcomes (empty when no extraction was
performed); `none` marks a run that never exits (see `copy_loop`). -/
def main_model (e : MainEnv) (env : ExtractEnv) (pak : List Nat) :
    Option (Nat × List (List Nat × Option (List Nat))) :=
  if e.argc ≠ 3 then some (1, [])
  else if e.extractDirExists then some (1, [])
  else if resource_init e = false then some (1, [])
  else
    let hp := parse_pak_header pak
    match extract_files env hp.1.flist e.extractDir hp.2 with
    | none => none
    | some (results, _) => some (0, results)

/-! ## Theorems

Unfolding equations for the loop functions defined by well-founded
recursion, then the claims C1-C10. -/

theorem parse_all_nil (flist : FileAttrList) :
    parse_all_file_attrs [] flist = (flist, []) := by
  rw [parse_all_file_attrs]

theorem parse_all_term {flag : Nat} (rest : List Nat) (flist : FileAttrList)
    (h : decode_one_byte flag = 0x80) :
    parse_all_file_attrs (flag :: rest) flist = (flist, rest) := by
  rw [parse_all_file_attrs, if_pos h]

theorem parse_all_fail {flag : Nat} {rest : List Nat} (flist : FileAttrList)
    (h : decode_one_byte flag ≠ 0x80) (h2 : parse_record rest = none) :
    parse_all_file_attrs (flag :: rest) flist = (flist, []) := by
  rw [parse_all_file_attrs, if_neg h]
  split
  · rfl
  · rename_i attr rest2 heq
    rw [h2] at heq
    exact absurd heq (by simp)

theorem parse_all_cons {flag : Nat} {rest : List Nat} (flist : FileAttrList)
    {attr : FileAttr} {rest2 : List Nat}
    (h : decode_one_byte flag ≠ 0x80) (h2 : parse_record rest = some (attr, rest2)) :
    parse_all_file_attrs (flag :: rest) flist =
      parse_all_file_attrs rest2 (file_attr_list_add flist attr) := by
  rw [parse_all_file_attrs, if_neg h]
  split
  · rename_i heq
    rw [h2] at heq
    exact absurd heq (by simp)
  · rename_i attr' rest2' heq
    rw [h2] at heq
    obtain ⟨rfl, rfl⟩ : attr = attr' ∧ rest2 = rest2' := by simpa using heq
    rfl

theorem copy_loop_zero (bufLen : Nat) (s : List Nat) :
    copy_loop bufLen 0 s = some ([], s) := by
  rw [copy_loop]
  simp

theorem copy_loop_stuck {bufLen fileSize : Nat} {s : List Nat}
    (h : fileSize ≠ 0) (h2 : min (min fileSize bufLen) s.length = 0) :
    copy_loop bufLen fileSize s = none := by
  rw [copy_loop, if_neg h]
  simp [h2]

theorem copy_loop_chunk {bufLen fileSize : Nat} {s : List Nat}
    (h : fileSize ≠ 0) (h2 : min (min fileSize bufLen) s.length ≠ 0) :
    copy_loop bufLen fileSize s =
      (copy_loop bufLen (fileSize - min (min fileSize bufLen) s.length)
          (s.drop (min (min fileSize bufLen) s.length))).map
        (fun pr => (decode_bytes (s.take (min (min fileSize bufLen) s.length)) ++ pr.1, pr.2)) := by
  rw [copy_loop, if_neg h]
  simp only [dif_neg h2]
  cases copy_loop bufLen (fileSize - min (min fileSize bufLen) s.length)
      (s.drop (min (min fileSize bufLen) s.length)) with
  | none => rfl
  | some pr => rfl

/-- A copy whose whole `fileSize` fits in one buffer chunk and in the
remaining stream: one iteration reads, decodes and writes everything. -/
theorem copy_loop_one_chunk {bufLen fileSize : Nat} {s : List Nat}
    (h : 0 < fileSize) (hb : fileSize ≤ bufLen) (hs : fileSize ≤ s.length) :
    copy_loop bufLen fileSize s = some (decode_bytes (s.take fileSize), s.drop fileSize) := by
  have hmin : min (min fileSize bufLen) s.length = fileSize := by omega
  rw [copy_loop_chunk (by omega) (by omega)]
  rw [hmin, Nat.sub_self, copy_loop_zero]
  simp

theorem parse_spec_term {b : Nat} (rest : List Nat) (flist : FileAttrList)
    (h : decode_one_byte b = 0x80) :
    parse_all_spec (b :: rest) flist = (flist, rest) := by
  rw [parse_all_spec, if_pos h]

theorem parse_spec_step {b : Nat} {rest rawName s1 rawSize s2 rawTime s3 : List Nat}
    (flist : FileAttrList) (h : decode_one_byte b ≠ 0x80)
    (h1 : readBytes (decode_one_byte b) rest = some (rawName, s1))
    (h2 : readBytes 4 s1 = some (rawSize, s2))
    (h3 : readBytes 8 s2 = some (rawTime, s3)) :
    parse_all_spec (b :: rest) flist =
      parse_all_spec s3 (file_attr_list_add flist
        ⟨decode_bytes rawName ++ [0], le32 (decode_bytes rawSize), decode_bytes rawTime⟩) := by
  rw [parse_all_spec, if_neg h]
  split
  · rename_i heq
    rw [h1] at heq; exact absurd heq (by simp)
  · rename_i rawName' s1' heq
    rw [h1] at heq
    obtain ⟨rfl, rfl⟩ : rawName = rawName' ∧ s1 = s1' := by simpa using heq
    split
    · rename_i heq2
      rw [h2] at heq2; exact absurd heq2 (by simp)
    · rename_i rawSize' s2' heq2
      rw [h2] at heq2
      obtain ⟨rfl, rfl⟩ : rawSize = rawSize' ∧ s2 = s2' := by simpa using heq2
      split
      · rename_i heq3
        rw [h3] at heq3; exact absurd heq3 (by simp)
      · rename_i rawTime' s3' heq3
        rw [h3] at heq3
        obtain ⟨rfl, rfl⟩ : rawTime = rawTime' ∧ s3 = s3' := by simpa using heq3
        rfl

theorem parse_spec_fail_size {b : Nat} {rest rawName s1 : List Nat}
    (flist : FileAttrList) (h : decode_one_byte b ≠ 0x80)
    (h1 : readBytes (decode_one_byte b) rest = some (rawName, s1))
    (h2 : readBytes 4 s1 = none) :
    parse_all_spec (b :: rest) flist = (flist, []) := by
  rw [parse_all_spec, if_neg h]
  split
  · rename_i heq
    rw [h1] at heq
  · rename_i rawName' s1' heq
    rw [h1] at heq
    obtain ⟨rfl, rfl⟩ : rawName = rawName' ∧ s1 = s1' := by simpa using heq
    split
    · rfl
    · rename_i rawSize' s2' heq2
      rw [h2] at heq2
      exact absurd heq2 (by simp)

/-- `fread` of exactly the bytes of `a` off the front of `a ++ b`. -/
theorem readBytes_append {n : Nat} (a b : List Nat) (h : a.length = n) :
    readBytes n (a ++ b) = some (a, b) := by
  unfold readBytes
  rw [if_pos (by simp [← h])]
  rw [List.take_left' h, List.drop_left' h]

/-- `parse_file_name` on a stream beginning with a length byte and the
full name. -/
theorem parse_file_name_append (lenB : Nat) (name x : List Nat)
    (h : name.length = decode_one_byte lenB) :
    parse_file_name (lenB :: (name ++ x)) = some (decode_bytes name ++ [0], x) := by
  unfold parse_file_name
  dsimp only
  rw [readBytes_append name x h]

/-- `parse_file_size` on a stream beginning with the full 4 size bytes. -/
theorem parse_file_size_append (sizeB x : List Nat) (h : sizeB.length = 4) :
    parse_file_size (sizeB ++ x) = some (le32 (decode_bytes sizeB), x) := by
  unfold parse_file_size
  rw [readBytes_append sizeB x h]

/-- `parse_file_last_write_time` on a stream beginning with the full 8
timestamp bytes. -/
theorem parse_file_time_append (timeB x : List Nat) (h : timeB.length = 8) :
    parse_file_last_write_time (timeB ++ x) = some (decode_bytes timeB, x) := by
  unfold parse_file_last_write_time
  rw [readBytes_append timeB x h]

/-- One whole record read off the front of the stream. -/
theorem parse_record_append (lenB : Nat) (name sizeB timeB rest : List Nat)
    (hn : name.length = decode_one_byte lenB) (hs : sizeB.length = 4)
    (ht : timeB.length = 8) :
    parse_record (lenB :: (name ++ (sizeB ++ (timeB ++ rest)))) =
      some (⟨decode_bytes name ++ [0], le32 (decode_bytes sizeB),
             decode_bytes timeB⟩, rest) := by
  unfold parse_record
  rw [parse_file_name_append lenB name (sizeB ++ (timeB ++ rest)) hn]
  dsimp only
  rw [parse_file_size_append sizeB (timeB ++ rest) hs]
  dsimp only
  rw [parse_file_time_append timeB rest ht]

/-! ### Claim C4 -/

/-- Claim C4: the stream codec is `decode(b) = b XOR 0xF7`, and it is an
involution: for every byte value `b`, `decode(decode(b)) = b`. -/
theorem c4_codec_involution (b : Nat) (hb : b < 256) :
    decode_one_byte b = b ^^^ 0xf7 ∧ decode_one_byte (decode_one_byte b) = b := by
  have h256 : (2 : Nat) ^ 8 = 256 := by norm_num
  have hx : b ^^^ 0xf7 < 256 := by
    rw [← h256] at hb ⊢
    exact Nat.xor_lt_two_pow hb (by norm_num)
  have hxx : (b ^^^ 0xf7) ^^^ 0xf7 < 256 := by
    rw [← h256] at hx ⊢
    exact Nat.xor_lt_two_pow hx (by norm_num)
  have h1 : decode_one_byte b = b ^^^ 0xf7 := by
    unfold decode_one_byte
    exact Nat.mod_eq_of_lt hx
  refine ⟨h1, ?_⟩
  rw [h1]
  unfold decode_one_byte
  rw [Nat.mod_eq_of_lt hxx, Nat.xor_assoc, Nat.xor_self, Nat.xor_zero]

theorem c4_codec_involution_witness :
    (65 : Nat) < 256 ∧
      (decode_one_byte 65 = 65 ^^^ 0xf7 ∧ decode_one_byte (decode_one_byte 65) = 65) :=
  ⟨by decide, c4_codec_involution 65 (by decide)⟩

/-! ### Claim C2

The code reads a flag byte (`reach_pak_header_end`) and then a separate
length byte (`parse_file_name`); the spec's single-byte reading of the
loop (`parse_all_spec`) disagrees with it on well-formed streams. -/

/-- Claim C2, counterexample: on the container record table
`00 01 'a' 00000000 t(8) 80` (each byte XOR-0xF7 encoded), the code's
loop parses one record named "a" (the leading `00` is a discarded flag
byte), while the claim's reading — the first decoded byte is itself the
filename length — yields a record with an empty name and a different
size.  The two disagree. -/
theorem c2_counterexample :
    parse_all_file_attrs
        [247, 246, 150, 247, 247, 247, 247,
         247, 247, 247, 247, 247, 247, 247, 247, 119] file_attr_list_init ≠
      parse_all_spec
        [247, 246, 150, 247, 247, 247, 247,
         247, 247, 247, 247, 247, 247, 247, 247, 119] file_attr_list_init := by
  have hcode : parse_all_file_attrs
      [247, 246, 150, 247, 247, 247, 247,
       247, 247, 247, 247, 247, 247, 247, 247, 119] file_attr_list_init =
      (⟨[⟨[97, 0], 0, [0, 0, 0, 0, 0, 0, 0, 0]⟩], 1⟩, []) := by
    rw [parse_all_cons file_attr_list_init (by decide)
      (by decide :
        parse_record [246, 150, 247, 247, 247, 247,
          247, 247, 247, 247, 247, 247, 247, 247, 119] =
        some (⟨[97, 0], 0, [0, 0, 0, 0, 0, 0, 0, 0]⟩, [119]))]
    rw [parse_all_term [] _ (by decide)]
    decide
  have hspec : parse_all_spec
      [247, 246, 150, 247, 247, 247, 247,
       247, 247, 247, 247, 247, 247, 247, 247, 119] file_attr_list_init =
      (⟨[⟨[0], 24833, [0, 0, 0, 0, 0, 0, 0, 0]⟩], 1⟩, []) := by
    rw [parse_spec_step file_attr_list_init (by decide)
      (by decide : readBytes (decode_one_byte 247)
        [246, 150, 247, 247, 247, 247, 247, 247, 247, 247, 247, 247, 247, 247, 119] =
        some ([],
          [246, 150, 247, 247, 247, 247, 247, 247, 247, 247, 247, 247, 247, 247, 119]))
      (by decide : readBytes 4
        [246, 150, 247, 247, 247, 247, 247, 247, 247, 247, 247, 247, 247, 247, 119] =
        some ([246, 150, 247, 247],
          [247, 247, 247, 247, 247, 247, 247, 247, 247, 247, 119]))
      (by decide : readBytes 8
        [247, 247, 247, 247, 247, 247, 247, 247, 247, 247, 119] =
        some ([247, 247, 247, 247, 247, 247, 247, 247], [247, 247, 119]))]
    rw [parse_spec_fail_size _ (by decide)
      (by decide : readBytes (decode_one_byte 247) [247, 119] = some ([], [247, 119]))
      (by decide : readBytes 4 [247, 119] = (none : Option (List Nat × List Nat)))]
    decide
  rw [hcode, hspec]
  decide

/-- Claim C2 as amended: in each iteration of the record-table loop the
parser reads and decodes one **flag** byte; if the decoded flag equals
0x80 the loop ends.  Otherwise the flag byte is discarded and the parser
reads and decodes a **second** byte as the filename length `L`
(0 ≤ L ≤ 255), then reads and decodes the next `L` bytes as the name
(followed by 4 size bytes and 8 timestamp bytes). -/
theorem c2_flag_then_length (flag lenB : Nat) (name sizeB timeB rest : List Nat)
    (flist : FileAttrList) :
    (decode_one_byte flag = 0x80 →
      parse_all_file_attrs (flag :: rest) flist = (flist, rest)) ∧
    (decode_one_byte flag ≠ 0x80 →
     name.length = decode_one_byte lenB →
     sizeB.length = 4 → timeB.length = 8 →
     decode_one_byte lenB ≤ 255 ∧
     parse_all_file_attrs (flag :: lenB :: (name ++ (sizeB ++ (timeB ++ rest)))) flist =
       parse_all_file_attrs rest (file_attr_list_add flist
         ⟨decode_bytes name ++ [0], le32 (decode_bytes sizeB), decode_bytes timeB⟩)) := by
  constructor
  · intro h
    exact parse_all_term rest flist h
  · intro h hname hsize htime
    constructor
    · have : decode_one_byte lenB < 256 := Nat.mod_lt _ (by norm_num)
      omega
    · exact parse_all_cons flist h
        (parse_record_append lenB name sizeB timeB rest hname hsize htime)

theorem c2_flag_then_length_witness :
    (decode_one_byte 247 ≠ 0x80 ∧ ([150] : List Nat).length = decode_one_byte 246 ∧
     ([247, 247, 247, 247] : List Nat).length = 4 ∧
     ([247, 247, 247, 247, 247, 247, 247, 247] : List Nat).length = 8) ∧
    (decode_one_byte 246 ≤ 255 ∧
     parse_all_file_attrs
        (247 :: 246 :: ([150] ++ ([247, 247, 247, 247] ++
          ([247, 247, 247, 247, 247, 247, 247, 247] ++ [119])))) file_attr_list_init =
       parse_all_file_attrs [119] (file_attr_list_add file_attr_list_init
         ⟨decode_bytes [150] ++ [0], le32 (decode_bytes [247, 247, 247, 247]),
          decode_bytes [247, 247, 247, 247, 247, 247, 247, 247]⟩)) :=
  ⟨⟨by decide, by decide, by decide, by decide⟩,
   (c2_flag_then_length 247 246 [150] [247, 247, 247, 247]
       [247, 247, 247, 247, 247, 247, 247, 247] [119] file_attr_list_init).2
     (by decide) (by decide) (by decide) (by decide)⟩

/-! ### Claim C7 -/

theorem parse_all_accum :
    ∀ (n : Nat) (s : List Nat), s.length ≤ n → ∀ flist : FileAttrList,
      (parse_all_file_attrs s flist).1.items =
        flist.items ++ (parse_all_file_attrs s file_attr_list_init).1.items ∧
      (parse_all_file_attrs s flist).1.length =
        flist.length + (parse_all_file_attrs s file_attr_list_init).1.length := by
  intro n
  induction n with
  | zero =>
    intro s hs flist
    have hnil : s = [] := List.eq_nil_of_length_eq_zero (Nat.le_zero.mp hs)
    subst hnil
    simp [parse_all_nil, file_attr_list_init]
  | succ n ih =>
    intro s hs flist
    cases s with
    | nil => simp [parse_all_nil, file_attr_list_init]
    | cons flag rest =>
      by_cases hterm : decode_one_byte flag = 0x80
      · rw [parse_all_term rest flist hterm, parse_all_term rest file_attr_list_init hterm]
        simp [file_attr_list_init]
      · cases hpr : parse_record rest with
        | none =>
          rw [parse_all_fail flist hterm hpr, parse_all_fail file_attr_list_init hterm hpr]
          simp [file_attr_list_init]
        | some pr =>
          obtain ⟨attr, rest2⟩ := pr
          rw [parse_all_cons flist hterm hpr, parse_all_cons file_attr_list_init hterm hpr]
          have hlen : rest2.length ≤ n := by
            have := parse_record_length_lt hpr
            simp only [List.length_cons] at hs
            omega
          have H1 := ih rest2 hlen (file_attr_list_add flist attr)
          have H2 := ih rest2 hlen (file_attr_list_add file_attr_list_init attr)
          constructor
          · rw [H1.1, H2.1]
            simp [file_attr_list_add, file_attr_list_init]
          · rw [H1.2, H2.2]
            simp [file_attr_list_add, file_attr_list_init]
            omega

theorem parse_all_length_inv :
    ∀ (n : Nat) (s : List Nat), s.length ≤ n → ∀ flist : FileAttrList,
      flist.length = flist.items.length →
      (parse_all_file_attrs s flist).1.length =
        (parse_all_file_attrs s flist).1.items.length := by
  intro n
  induction n with
  | zero =>
    intro s hs flist hinv
    have hnil : s = [] := List.eq_nil_of_length_eq_zero (Nat.le_zero.mp hs)
    subst hnil
    simpa [parse_all_nil] using hinv
  | succ n ih =>
    intro s hs flist hinv
    cases s with
    | nil => simpa [parse_all_nil] using hinv
    | cons flag rest =>
      by_cases hterm : decode_one_byte flag = 0x80
      · rw [parse_all_term rest flist hterm]
        exact hinv
      · cases hpr : parse_record rest with
        | none =>
          rw [parse_all_fail flist hterm hpr]
          exact hinv
        | some pr =>
          obtain ⟨attr, rest2⟩ := pr
          rw [parse_all_cons flist hterm hpr]
          have hlen : rest2.length ≤ n := by
            have := parse_record_length_lt hpr
            simp only [List.length_cons] at hs
            omega
          exact ih rest2 hlen (file_attr_list_add flist attr)
            (by simp [file_attr_list_add, hinv])

/-- Claim C7: the Record Collection is append-only and order-preserving:
after parsing, the `length` field equals the number of records in the
list (each `file_attr_list_add` appended exactly one and counted it),
and parsing into any pre-existing collection appends the newly declared
records behind the existing ones, in stream declaration order — the
parse of the same stream from the empty collection. -/
theorem c7_collection_append_only_ordered (s : List Nat) :
    ((parse_all_file_attrs s file_attr_list_init).1.length =
      (parse_all_file_attrs s file_attr_list_init).1.items.length) ∧
    ∀ flist : FileAttrList,
      (parse_all_file_attrs s flist).1.items =
        flist.items ++ (parse_all_file_attrs s file_attr_list_init).1.items ∧
      (parse_all_file_attrs s flist).1.length =
        flist.length + (parse_all_file_attrs s file_attr_list_init).1.length :=
  ⟨parse_all_length_inv s.length s le_rfl file_attr_list_init rfl,
   fun flist => parse_all_accum s.length s le_rfl flist⟩

/-! ### Claim C9 -/

/-- Claim C9: for every decoded filename length `L` (including `L = 0`),
`parse_file_name` produces a pool allocation of exactly `L + 1` bytes:
the NUL terminator sits at index `L`, and indices `0 .. L-1` hold
exactly the decoded name bytes. -/
theorem c9_name_allocation (lenB : Nat) (name rest : List Nat)
    (h : name.length = decode_one_byte lenB) :
    parse_file_name (lenB :: (name ++ rest)) = some (decode_bytes name ++ [0], rest) ∧
    (decode_bytes name ++ [0]).length = decode_one_byte lenB + 1 ∧
    (decode_bytes name ++ [0])[decode_one_byte lenB]? = some 0 ∧
    (decode_bytes name ++ [0]).take (decode_one_byte lenB) = decode_bytes name := by
  have hl : (decode_bytes name).length = decode_one_byte lenB := by
    simp [decode_bytes, h]
  refine ⟨parse_file_name_append lenB name rest h, ?_, ?_, ?_⟩
  · simp [hl]
  · rw [List.getElem?_append_right (le_of_eq hl), hl]
    simp
  · rw [← hl, List.take_left]

theorem c9_name_allocation_witness :
    ([150] : List Nat).length = decode_one_byte 246 ∧
    (parse_file_name (246 :: ([150] ++ [])) = some (decode_bytes [150] ++ [0], []) ∧
     (decode_bytes [150] ++ [0]).length = decode_one_byte 246 + 1 ∧
     (decode_bytes [150] ++ [0])[decode_one_byte 246]? = some 0 ∧
     (decode_bytes [150] ++ [0]).take (decode_one_byte 246) = decode_bytes [150]) :=
  ⟨by decide, c9_name_allocation 246 [150] [] (by decide)⟩

/-! ### Claim C10 -/

theorem copy_cstr_no_nul (src : List Nat) (h : 0 ∉ src) :
    ∀ buf, copy_cstr src buf = buf ++ src := by
  induction src with
  | nil => intro buf; simp [copy_cstr]
  | cons c cs ih =>
    intro buf
    have hc : c ≠ 0 := fun e => h (e ▸ List.mem_cons_self c cs)
    rw [copy_cstr, if_neg hc, ih (fun hm => h (List.mem_cons_of_mem c hm))]
    simp

/-- Claim C10: for every non-empty extraction root and record name (as
NUL-free C strings), the composed destination path is the root, a single
backslash separator when the root does not already end in one, then the
name — and nothing else. -/
theorem c10_path_composition (root name : List Nat)
    (hr : root ≠ []) (hr0 : 0 ∉ root) (hn0 : 0 ∉ name) :
    build_complete_path root name =
      some (if root.getLast? = some 92 then root ++ name else root ++ 92 :: name) := by
  unfold build_complete_path
  rw [copy_cstr_no_nul root hr0 []]
  simp only [List.nil_append]
  obtain ⟨c, hc⟩ : ∃ c, root.getLast? = some c :=
    ⟨root.getLast hr, List.getLast?_eq_getLast root hr⟩
  rw [hc]
  dsimp only
  by_cases h92 : c = 92
  · subst h92
    rw [if_neg (by simp), copy_cstr_no_nul name hn0]
    simp
  · rw [if_pos h92, copy_cstr_no_nul name hn0]
    simp [h92]

theorem c10_path_composition_witness :
    (([111, 117, 116] : List Nat) ≠ [] ∧ (0 : Nat) ∉ ([111, 117, 116] : List Nat) ∧
      (0 : Nat) ∉ ([97] : List Nat)) ∧
    build_complete_path [111, 117, 116] [97] =
      some (if ([111, 117, 116] : List Nat).getLast? = some 92
            then [111, 117, 116] ++ [97] else [111, 117, 116] ++ 92 :: [97]) :=
  ⟨⟨by decide, by decide, by decide⟩,
   c10_path_composition [111, 117, 116] [97] (by decide) (by decide) (by decide)⟩

/-! ### Claim C1 -/

/-- Claim C1 is refuted by the code (the spec's intent, a defined error on
truncation, is what §4.4/§9 of the spec demand of a reimplementation):
when a record declares `size` larger than the bytes remaining, the
chunked copy loop of `parse_and_extract_one_file` never terminates.  At
the concrete failing state — `fileSize = 5`, stream exhausted — every
iteration of the loop body (`fread` returns 0, `WriteFile` of 0 bytes
succeeds, `fileSize -= 0`) leaves the state unchanged, so the loop guard
`fileSize > 0` still holds after any number of iterations, and the loop
as a whole (`copy_loop`) has no defined result. -/
theorem c1_truncated_copy_loops_forever :
    (∀ k : Nat, (copy_step 8192)^[k] (5, ([] : List Nat)) = (5, []) ∧
       0 < ((copy_step 8192)^[k] (5, ([] : List Nat))).1) ∧
    copy_loop 8192 5 [] = none := by
  have hfix : copy_step 8192 (5, ([] : List Nat)) = (5, []) := rfl
  constructor
  · intro k
    have hit := Function.iterate_fixed hfix k
    exact ⟨hit, by rw [hit]; decide⟩
  · exact copy_loop_stuck (by decide) (by decide)

/-! ### Claim C3 -/

theorem extract_one_skip {env : ExtractEnv} {extractPath : List Nat} {attr : FileAttr}
    {bufLen : Nat} {s path : List Nat}
    (hp : build_complete_path extractPath attr.fileName = some path)
    (hd : env.dirsOk path = false) :
    parse_and_extract_one_file env extractPath attr bufLen s = some ((path, none), s) := by
  unfold parse_and_extract_one_file
  rw [hp]
  dsimp only
  simp [hd]

theorem extract_one_write {env : ExtractEnv} {extractPath : List Nat} {attr : FileAttr}
    {bufLen : Nat} {s path out rest : List Nat}
    (hp : build_complete_path extractPath attr.fileName = some path)
    (hd : env.dirsOk path = true) (hc : env.createOk path = true)
    (hcopy : copy_loop bufLen attr.fileSize s = some (out, rest)) :
    parse_and_extract_one_file env extractPath attr bufLen s =
      some ((path, some out), rest) := by
  unfold parse_and_extract_one_file
  rw [hp]
  dsimp only
  simp [hd, hc, hcopy]

/-- Claim C3 is refuted by the code: a record whose destination cannot
be created is skipped WITHOUT consuming its `size` payload bytes from
the shared stream cursor, so every later record copies its bytes from
the wrong stream position.  Concrete failing input: extraction root
"out", two records "a" and "b" of size 2 each, payload stream
`[1, 2, 3, 4]` (record "a" owns `[1, 2]`, record "b" owns `[3, 4]`),
and an environment in which directory creation fails exactly for
"out\a".  Record "a" is skipped, and record "b"'s output file receives
`decode_bytes [1, 2]` — the decoded payload of the SKIPPED record — which
differs from its own decoded payload `decode_bytes [3, 4]`. -/
theorem c3_skip_shifts_later_payloads :
    extract_files
        ⟨fun p => decide (p ≠ [111, 117, 116, 92, 97]), fun _ => true⟩
        ⟨[⟨[97, 0], 2, []⟩, ⟨[98, 0], 2, []⟩], 2⟩
        [111, 117, 116] [1, 2, 3, 4] =
      some ([([111, 117, 116, 92, 97], none),
             ([111, 117, 116, 92, 98], some (decode_bytes [1, 2]))], [3, 4]) ∧
    decode_bytes [1, 2] ≠ decode_bytes [3, 4] := by
  constructor
  · have h1 : parse_and_extract_one_file
        ⟨fun p => decide (p ≠ [111, 117, 116, 92, 97]), fun _ => true⟩
        [111, 117, 116] ⟨[97, 0], 2, []⟩ 8192 [1, 2, 3, 4] =
        some (([111, 117, 116, 92, 97], none), [1, 2, 3, 4]) :=
      extract_one_skip (by decide) (by decide)
    have hcopy : copy_loop 8192 2 [1, 2, 3, 4] = some (decode_bytes [1, 2], [3, 4]) := by
      have := @copy_loop_one_chunk 8192 2 [1, 2, 3, 4] (by decide) (by decide) (by decide)
      simpa using this
    have h2 : parse_and_extract_one_file
        ⟨fun p => decide (p ≠ [111, 117, 116, 92, 97]), fun _ => true⟩
        [111, 117, 116] ⟨[98, 0], 2, []⟩ 8192 [1, 2, 3, 4] =
        some (([111, 117, 116, 92, 98], some (decode_bytes [1, 2])), [3, 4]) :=
      extract_one_write (by decide) (by decide) (by decide) hcopy
    unfold extract_files
    simp only [extract_files_loop, h1, h2]
  · decide

/-! ### Claim C5 -/

theorem arena_scan_eq_spec_scan (size : Nat) :
    ∀ blocks : List ArenaBlockHeader, (∀ b ∈ blocks, b.used ≤ b.capacity) →
      arena_scan blocks size = alloc_spec_scan blocks size := by
  intro blocks
  induction blocks with
  | nil => intro _; rfl
  | cons hd tl ih =>
    intro hinv
    have hhd : hd.used ≤ hd.capacity := hinv hd (List.mem_cons_self hd tl)
    unfold arena_scan alloc_spec_scan
    by_cases hc : hd.used + size ≤ hd.capacity
    · rw [if_pos hc, if_pos (by omega)]
    · rw [if_neg hc, if_neg (by omega)]
      rw [ih (fun b hb => hinv b (List.mem_cons_of_mem hd hb))]

/-- Claim C5: `arena_malloc` implements exactly the spec's allocation
contract: scan existing blocks most-recently-created first, serve from
the first block with `capacity - used ≥ size` bumping its `used` by
`size`; otherwise create a new block of capacity
`max(defaultBlockSize, size)` with `used = size`, linked most-recent
(for pools whose blocks satisfy the `used ≤ capacity` invariant). -/
theorem c5_arena_malloc_follows_spec (arena : ArenaAllocator) (size : Nat)
    (hinv : ∀ b ∈ arena.blocks, b.used ≤ b.capacity) :
    arena_malloc arena size = alloc_spec arena size := by
  unfold arena_malloc alloc_spec
  rw [arena_scan_eq_spec_scan size arena.blocks hinv]
  cases h : alloc_spec_scan arena.blocks size with
  | some pr => rfl
  | none =>
    by_cases hs : size < arena.blockSize
    · rw [if_pos hs]
      unfold arena_create_new_block
      have hmax : max arena.blockSize size = arena.blockSize := by omega
      rw [hmax]
    · rw [if_neg hs]
      unfold arena_create_new_block
      have hmax : max arena.blockSize size = size := by omega
      rw [hmax]

theorem c5_arena_malloc_follows_spec_witness :
    (∀ b ∈ (arena_create 8).blocks, b.used ≤ b.capacity) ∧
    arena_malloc (arena_create 8) 3 = alloc_spec (arena_create 8) 3 :=
  ⟨by decide, c5_arena_malloc_follows_spec (arena_create 8) 3 (by decide)⟩

/-! ### Claim C6 -/

theorem spans_overlap_of_ne_block {s1 s2 : Span} (h : s1.blockId ≠ s2.blockId) :
    spans_overlap s1 s2 = false := by
  simp [spans_overlap, h]

theorem spans_overlap_of_before {s1 s2 : Span} (h : s1.offset + s1.len ≤ s2.offset) :
    spans_overlap s1 s2 = false := by
  simp only [spans_overlap, Bool.and_eq_false_iff, decide_eq_false_iff_not, not_lt]
  right
  omega

theorem arena_scan_some_shape {size : Nat} :
    ∀ {blocks blocks2 : List ArenaBlockHeader} {sp : Span},
      arena_scan blocks size = some (blocks2, sp) →
      ∃ bs1 b bs2, blocks = bs1 ++ b :: bs2 ∧
        blocks2 = bs1 ++ { b with used := b.used + size } :: bs2 ∧
        sp = ⟨b.id, b.used, size⟩ ∧ b.used + size ≤ b.capacity := by
  intro blocks
  induction blocks with
  | nil => intro blocks2 sp h; exact absurd h (by simp [arena_scan])
  | cons hd tl ih =>
    intro blocks2 sp h
    unfold arena_scan at h
    by_cases hc : hd.used + size ≤ hd.capacity
    · rw [if_pos hc] at h
      obtain ⟨h1, h2⟩ : { hd with used := hd.used + size } :: tl = blocks2 ∧
          (⟨hd.id, hd.used, size⟩ : Span) = sp := by simpa using h
      exact ⟨[], hd, tl, rfl, h1.symm, h2.symm, hc⟩
    · rw [if_neg hc] at h
      cases htl : arena_scan tl size with
      | none => rw [htl] at h; exact absurd h (by simp)
      | some pr =>
        obtain ⟨bs2', sp'⟩ := pr
        rw [htl] at h
        dsimp only at h
        obtain ⟨hb, hsp⟩ : hd :: bs2' = blocks2 ∧ sp' = sp := by simpa using h
        obtain ⟨bs1, b, bs2, e1, e2, e3, e4⟩ := ih htl
        refine ⟨hd :: bs1, b, bs2, ?_, ?_, hsp ▸ e3, e4⟩
        · rw [e1]; rfl
        · rw [← hb, e2]; rfl

theorem new_block_wf {st : ArenaState} (size cap : Nat) (hsc : size ≤ cap)
    (h : arena_wf st) :
    arena_wf ⟨arena_create_new_block st.arena cap size,
              st.spans ++ [⟨st.arena.blockNum, 0, size⟩]⟩ := by
  obtain ⟨hcap, hid, hnodup, hspan, hpair⟩ := h
  refine ⟨?_, ?_, ?_, ?_, ?_⟩
  · intro x hx
    rcases List.mem_cons.mp hx with rfl | hx
    · exact hsc
    · exact hcap x hx
  · intro x hx
    rcases List.mem_cons.mp hx with rfl | hx
    · exact Nat.lt_succ_self _
    · exact Nat.lt_succ_of_lt (hid x hx)
  · refine List.Nodup.cons ?_ hnodup
    intro hmem
    obtain ⟨y, hy, hyid⟩ := List.mem_map.mp hmem
    exact absurd hyid (Nat.ne_of_lt (hid y hy))
  · intro sp hsp
    rcases List.mem_append.mp hsp with hsp | hsp
    · obtain ⟨b, hb, hbid, hbound⟩ := hspan sp hsp
      exact ⟨b, List.mem_cons_of_mem _ hb, hbid, hbound⟩
    · rcases List.mem_singleton.mp hsp with rfl
      exact ⟨_, List.mem_cons_self _ _, rfl, by simp⟩
  · rw [List.pairwise_append]
    refine ⟨hpair, List.pairwise_singleton _ _, ?_⟩
    intro s1 hs1 s2 hs2
    rcases List.mem_singleton.mp hs2 with rfl
    obtain ⟨b, hb, hbid, hbound⟩ := hspan s1 hs1
    exact spans_overlap_of_ne_block (by
      rw [hbid]
      exact Nat.ne_of_lt (hid b hb))

theorem alloc_step_wf {st : ArenaState} (size : Nat) (h : arena_wf st) :
    arena_wf (alloc_step st size) := by
  unfold alloc_step arena_malloc
  cases hscan : arena_scan st.arena.blocks size with
  | none =>
    dsimp only
    by_cases hs : size < st.arena.blockSize
    · rw [if_pos hs]
      exact new_block_wf size st.arena.blockSize (Nat.le_of_lt hs) h
    · rw [if_neg hs]
      exact new_block_wf size size le_rfl h
  | some pr =>
    obtain ⟨blocks2, sp⟩ := pr
    dsimp only
    obtain ⟨hcap, hid, hnodup, hspan, hpair⟩ := h
    obtain ⟨bs1, b, bs2, e1, e2, e3, e4⟩ := arena_scan_some_shape hscan
    have hbmem : b ∈ st.arena.blocks := by
      rw [e1]; exact List.mem_append_right _ (List.mem_cons_self _ _)
    refine ⟨?_, ?_, ?_, ?_, ?_⟩
    · intro x hx
      rw [e2] at hx
      rcases List.mem_append.mp hx with hx | hx
      · exact hcap x (by rw [e1]; exact List.mem_append_left _ hx)
      · rcases List.mem_cons.mp hx with rfl | hx
        · exact e4
        · exact hcap x (by
            rw [e1]
            exact List.mem_append_right _ (List.mem_cons_of_mem _ hx))
    · intro x hx
      rw [e2] at hx
      rcases List.mem_append.mp hx with hx | hx
      · exact hid x (by rw [e1]; exact List.mem_append_left _ hx)
      · rcases List.mem_cons.mp hx with rfl | hx
        · exact hid b hbmem
        · exact hid x (by
            rw [e1]
            exact List.mem_append_right _ (List.mem_cons_of_mem _ hx))
    · have hmapeq : blocks2.map ArenaBlockHeader.id =
          st.arena.blocks.map ArenaBlockHeader.id := by
        rw [e1, e2]
        simp
      rw [hmapeq]
      exact hnodup
    · intro sp' hsp'
      rcases List.mem_append.mp hsp' with hsp' | hsp'
      · obtain ⟨b'', hb'', hbid, hbound⟩ := hspan sp' hsp'
        rw [e1] at hb''
        rcases List.mem_append.mp hb'' with hb'' | hb''
        · exact ⟨b'', by rw [e2]; exact List.mem_append_left _ hb'', hbid, hbound⟩
        · rcases List.mem_cons.mp hb'' with rfl | hb''
          · refine ⟨{ b'' with used := b''.used + size }, ?_,
              hbid, by show sp'.offset + sp'.len ≤ b''.used + size; omega⟩
            rw [e2]
            exact List.mem_append_right _ (List.mem_cons_self _ _)
          · exact ⟨b'', by
              rw [e2]
              exact List.mem_append_right _ (List.mem_cons_of_mem _ hb''), hbid, hbound⟩
      · rcases List.mem_singleton.mp hsp' with rfl
        refine ⟨{ b with used := b.used + size }, ?_, by rw [e3], by rw [e3]⟩
        rw [e2]
        exact List.mem_append_right _ (List.mem_cons_self _ _)
    · rw [List.pairwise_append]
      refine ⟨hpair, List.pairwise_singleton _ _, ?_⟩
      intro s1 hs1 s2 hs2
      rcases List.mem_singleton.mp hs2 with rfl
      obtain ⟨b'', hb'', hbid, hbound⟩ := hspan s1 hs1
      by_cases hsame : s1.blockId = s2.blockId
      · have hbeq : b'' = b := by
          refine List.inj_on_of_nodup_map hnodup hb'' hbmem ?_
          rw [← hbid, hsame, e3]
        refine spans_overlap_of_before ?_
        rw [e3]
        rw [hbeq] at hbound
        exact hbound
      · exact spans_overlap_of_ne_block hsame

theorem arena_run_wf (blockSize : Nat) (sizes : List Nat) :
    arena_wf (arena_run blockSize sizes) := by
  have hinit : arena_wf ⟨arena_create blockSize, []⟩ := by
    refine ⟨?_, ?_, ?_, ?_, ?_⟩ <;> simp [arena_create]
  unfold arena_run
  have hfold : ∀ (l : List Nat) (st : ArenaState),
      arena_wf st → arena_wf (l.foldl alloc_step st) := by
    intro l
    induction l with
    | nil => intro st h; exact h
    | cons a as ih => intro st h; exact ih _ (alloc_step_wf a h)
  exact hfold sizes _ hinit

/-- Claim C6: every pool built by `arena_create` followed by any
sequence of `arena_malloc` requests satisfies `used ≤ capacity` on every
block, no two spans returned by the allocator overlap, and the total
`used` over all blocks never exceeds the total `capacity`. -/
theorem c6_pool_invariants (blockSize : Nat) (sizes : List Nat) :
    (∀ b ∈ (arena_run blockSize sizes).arena.blocks, b.used ≤ b.capacity) ∧
    ((arena_run blockSize sizes).spans.Pairwise
      fun s1 s2 => spans_overlap s1 s2 = false) ∧
    ((arena_run blockSize sizes).arena.blocks.map ArenaBlockHeader.used).sum ≤
      ((arena_run blockSize sizes).arena.blocks.map ArenaBlockHeader.capacity).sum := by
  obtain ⟨h1, h2, h3, h4, h5⟩ := arena_run_wf blockSize sizes
  exact ⟨h1, h5, List.sum_le_sum fun b hb => h1 b hb⟩

/-! ### Claim C8 -/

/-- Claim C8: the process exits with code 1 exactly on a wrong argument
count, a pre-existing extraction directory (in which case no extraction
output is produced), or failed pool/container/log initialization; any
run that completes otherwise exits with code 0, whatever the per-record
extraction outcomes were. -/
theorem c8_exit_codes (e : MainEnv) (env : ExtractEnv) (pak : List Nat) :
    ((e.argc ≠ 3 ∨ e.extractDirExists = true ∨ resource_init e = false) →
      main_model e env pak = some (1, [])) ∧
    (e.argc = 3 → e.extractDirExists = false → resource_init e = true →
      ∀ code results, main_model e env pak = some (code, results) → code = 0) := by
  constructor
  · intro hbad
    unfold main_model
    by_cases h1 : e.argc ≠ 3
    · rw [if_pos h1]
    · rw [if_neg h1]
      by_cases h2 : e.extractDirExists
      · rw [if_pos h2]
      · rw [if_neg h2]
        have h3 : resource_init e = false := by
          rcases hbad with h | h | h
          · exact absurd h h1
          · exact absurd h (by simpa using h2)
          · exact h
        rw [if_pos h3]
  · intro ha hd hr code results hm
    unfold main_model at hm
    rw [if_neg (by simp [ha]), if_neg (by simp [hd]), if_neg (by simp [hr])] at hm
    dsimp only at hm
    cases hx : extract_files env (parse_pak_header pak).1.flist e.extractDir
        (parse_pak_header pak).2 with
    | none =>
      rw [hx] at hm
      exact absurd hm (by simp)
    | some pr =>
      obtain ⟨rs, srest⟩ := pr
      rw [hx] at hm
      dsimp only at hm
      obtain ⟨h0, -⟩ : 0 = code ∧ rs = results := by simpa using hm
      exact h0.symm

theorem c8_exit_codes_witness :
    main_model ⟨3, [100], true, true, true, true⟩ ⟨fun _ => true, fun _ => true⟩ [] =
      some (1, []) ∧ (0 : Nat) = 0 :=
  ⟨(c8_exit_codes ⟨3, [100], true, true, true, true⟩ ⟨fun _ => true, fun _ => true⟩ []).1
     (Or.inr (Or.inl rfl)),
   (c8_exit_codes ⟨3, [100], false, true, true, true⟩ ⟨fun _ => true, fun _ => true⟩ []).2
     rfl rfl rfl 0 [] rfl⟩

end PakExtractor
